import Mathlib

/-!
# Verification of the reimagined-eureka ledger engine

A shallow embedding of the core algorithms of `eureka.py` and
`security.py` (transactions, block construction with Merkle commitment,
fork-table queries, pruning, difficulty retargeting, reward halving and
the RSA-style signature decoding), together with theorems settling the
frozen claims about the natural-language specification.

The cryptographic hash collaborator (`sha_512`) is consumed by the
ledger only through the interface `hash : String → String` (spec §6),
so the block-level definitions are parametric in that function.
Timestamps are modelled as natural numbers (the code truncates them
with `int(...)` before use), monetary amounts as rationals.
-/

namespace Eureka

/-- Python exceptions that the modelled code can raise.  `invalidTransaction`
is the repository's `InvalidTransaction(BlockChainException)`; the first
argument is the positional `index`/height it is constructed with. -/
inductive PyError where
  | invalidTransaction (index : Nat) (message : String)
  | valueError (message : String)
  | indexError (message : String)
deriving DecidableEq

/-- Equality of `Except` values is decidable when it is for both sides. -/
instance exceptDecEq {ε α : Type} [DecidableEq ε] [DecidableEq α] :
    DecidableEq (Except ε α) := fun
  | .ok a, .ok b =>
      if h : a = b then isTrue (by rw [h])
      else isFalse (by intro hh; cases hh; exact h rfl)
  | .ok _, .error _ => isFalse (by intro hh; cases hh)
  | .error _, .ok _ => isFalse (by intro hh; cases hh)
  | .error e, .error f =>
      if h : e = f then isTrue (by rw [h])
      else isFalse (by intro hh; cases hh; exact h rfl)

/-- Boolean test that an `Except` value is a success. -/
def exceptIsOk {ε α : Type} : Except ε α → Bool
  | .ok _ => true
  | .error _ => false

/-! ## List-maximum helper

`[x for x in coll.find().sort('height', -1).limit(1)][0]['height']` — the
query pattern used by `get_height`, `get_tallest_block` and `prune` — is
the maximum of the heights, or an `IndexError` on an empty collection.
We model the sort/limit/slice pipeline as `natMaxOf`. -/

/-- The maximum of a list of naturals, `none` when the list is empty. -/
def natMaxOf : List Nat → Option Nat
  | [] => none
  | x :: xs => some (xs.foldl Nat.max x)

theorem foldlMax_bounds : ∀ (xs : List Nat) (a : Nat),
    a ≤ xs.foldl Nat.max a ∧ ∀ x ∈ xs, x ≤ xs.foldl Nat.max a
  | [], a => ⟨Nat.le_refl a, by intro x hx; cases hx⟩
  | x :: xs, a => by
    obtain ⟨h1, h2⟩ := foldlMax_bounds xs (Nat.max a x)
    rw [List.foldl_cons]
    refine ⟨Nat.le_trans (Nat.le_max_left a x) h1, ?_⟩
    intro y hy
    rcases List.mem_cons.mp hy with h | h
    · rw [h]; exact Nat.le_trans (Nat.le_max_right a x) h1
    · exact h2 y h

theorem foldlMax_mem : ∀ (xs : List Nat) (a : Nat),
    xs.foldl Nat.max a = a ∨ xs.foldl Nat.max a ∈ xs
  | [], _ => .inl rfl
  | x :: xs, a => by
    rw [List.foldl_cons]
    have hm : Nat.max a x = a ∨ Nat.max a x = x := by
      rcases Nat.le_total a x with hle | hle
      · exact .inr (Nat.max_eq_right hle)
      · exact .inl (Nat.max_eq_left hle)
    rcases foldlMax_mem xs (Nat.max a x) with h | h
    · rcases hm with hma | hmx
      · exact .inl (by rw [h, hma])
      · exact .inr (by rw [h, hmx]; exact List.mem_cons_self x xs)
    · exact .inr (List.mem_cons_of_mem x h)

theorem natMaxOf_spec {l : List Nat} {m : Nat} (h : natMaxOf l = some m) :
    m ∈ l ∧ ∀ x ∈ l, x ≤ m := by
  cases l with
  | nil => cases h
  | cons x xs =>
    have hm : xs.foldl Nat.max x = m := by
      simpa [natMaxOf] using h
    obtain ⟨h1, h2⟩ := foldlMax_bounds xs x
    subst hm
    constructor
    · rcases foldlMax_mem xs x with he | he
      · rw [he]; exact List.mem_cons_self x xs
      · exact List.mem_cons_of_mem x he
    · intro y hy
      rcases List.mem_cons.mp hy with h | h
      · subst h; exact h1
      · exact h2 y h

theorem natMaxOf_eq {l : List Nat} {m : Nat} (hmem : m ∈ l)
    (hub : ∀ x ∈ l, x ≤ m) : natMaxOf l = some m := by
  cases l with
  | nil => cases hmem
  | cons x xs =>
    obtain ⟨hM, hMub⟩ := natMaxOf_spec (l := x :: xs) rfl
    have h1 : xs.foldl Nat.max x ≤ m := hub _ hM
    have h2 : m ≤ xs.foldl Nat.max x := hMub m hmem
    exact congrArg some (Nat.le_antisymm h1 h2)

/-! ## Block header (`Block._get_header`)

```python
data = prev_hash + merkle_root + "{0:0>8x}".format(int(timestamp)) + "{0:0>8x}".format(nonce)
data_hash = sha_512(data + data)
return data_hash
``` -/

/-- Python's `"{0:0>8x}".format(n)`: lowercase hex, left-padded with `0`
to at least eight characters. -/
def hex8 (n : Nat) : String :=
  let s := Nat.toDigits 16 n
  String.mk (List.replicate (8 - s.length) '0' ++ s)

/-- `Block._get_header`, parametric in the hash collaborator `h`. -/
def get_header (h : String → String) (prev_hash merkle_root : String)
    (timestamp nonce : Nat) : String :=
  let data := prev_hash ++ merkle_root ++ hex8 timestamp ++ hex8 nonce
  h (data ++ data)

/-- A concrete deterministic stand-in for the hash collaborator, used to
instantiate parametric theorems at computable inputs. -/
def tagHash (s : String) : String := "H(" ++ s ++ ")"

/-! ## Merkle root (`Block._find_merkle_root`)

```python
if len(self.transactions) < 1:
    raise InvalidTransaction(self.height, "Zero transactions in block. Please provide transactions.")
base = [transaction.hash for transaction in self.transactions]
while len(base) > 1:
    temp_base = []
    for i in range(0, len(base), 2):
        if i == len(base) - 1:
            temp_base.append(sha_512(base[i]))
        else:
            temp_base.append(sha_512(base[i] + base[i+1]))
    base = temp_base
return base[0]
```

`mergeLevel h base i` renders one run of the inner `for` loop from index
`i` upward; `merkleLoop` renders the outer `while`. -/

/-! ### The claim-side Merkle description

The pairwise folding as the spec words it: at each level adjacent pairs
are hashed as the hash of their concatenation, an unpaired final element
is hashed alone, and the fold repeats until one digest remains.  It is
stated first because the length lemma it satisfies also certifies the
termination of the source's `while` loop. -/

/-- One level of the spec's pairwise folding. -/
def pairFold (h : String → String) : List String → List String
  | [] => []
  | [x] => [h x]
  | x :: y :: rest => h (x ++ y) :: pairFold h rest

/-- Each pairwise level halves the width, rounding up. -/
theorem pairFold_length (h : String → String) :
    ∀ l : List String, (pairFold h l).length = (l.length + 1) / 2
  | [] => by simp [pairFold]
  | [_] => by simp [pairFold]
  | _ :: _ :: rest => by
    simp only [pairFold, List.length_cons, pairFold_length h rest]
    omega

/-- The spec's Merkle root: repeat the pairwise level until one digest
remains (a singleton leaf list is its own root, as in the source). -/
def merkleRootSpec (h : String → String) : List String → String
  | [] => ""
  | [x] => x
  | x :: y :: rest => merkleRootSpec h (pairFold h (x :: y :: rest))
termination_by l => l.length
decreasing_by
  simp only [pairFold, List.length_cons, pairFold_length]
  omega

/-- The inner `for i in range(0, len(base), 2)` loop of
`Block._find_merkle_root`, from index `i`: hash `base[i] + base[i+1]`
for a full pair, hash `base[i]` alone when it is the final element. -/
def mergeLevel (h : String → String) (base : List String) (i : Nat) : List String :=
  if _hlt : i < base.length then
    (if i = base.length - 1 then h (base.getD i "")
     else h (base.getD i "" ++ base.getD (i + 1) "")) :: mergeLevel h base (i + 2)
  else []
termination_by base.length - i
decreasing_by omega

/-- The index-stepped inner loop is the pairwise folding of the tail it
still has to visit. -/
theorem mergeLevel_eq_pairFold (h : String → String) (base : List String)
    (i : Nat) : mergeLevel h base i = pairFold h (base.drop i) := by
  rw [mergeLevel]
  by_cases hlt : i < base.length
  · rw [dif_pos hlt]
    by_cases hlast : i = base.length - 1
    · have hdrop : base.drop i = [base.getD i ""] := by
        have h1 : base.drop i = base.getD i "" :: base.drop (i + 1) := by
          rw [List.getD_eq_getElem base "" hlt]
          exact List.drop_eq_getElem_cons hlt
        have h2 : base.drop (i + 1) = [] := by
          apply List.drop_eq_nil_of_le
          omega
        rw [h1, h2]
      rw [if_pos hlast, hdrop, pairFold]
      have hstop : mergeLevel h base (i + 2) = [] := by
        rw [mergeLevel]
        rw [dif_neg (by omega)]
      rw [hstop]
    · have hi1 : i + 1 < base.length := by omega
      have hdrop : base.drop i =
          base.getD i "" :: base.getD (i + 1) "" :: base.drop (i + 2) := by
        have h1 : base.drop i = base.getD i "" :: base.drop (i + 1) := by
          rw [List.getD_eq_getElem base "" hlt]
          exact List.drop_eq_getElem_cons hlt
        have h2 : base.drop (i + 1) = base.getD (i + 1) "" :: base.drop (i + 2) := by
          rw [List.getD_eq_getElem base "" hi1]
          exact List.drop_eq_getElem_cons hi1
        rw [h1, h2]
      rw [if_neg hlast, hdrop, pairFold, mergeLevel_eq_pairFold h base (i + 2)]
  · rw [dif_neg hlt]
    rw [List.drop_eq_nil_of_le (by omega)]
    rfl
termination_by base.length - i
decreasing_by omega

/-- The outer `while len(base) > 1` loop of `Block._find_merkle_root`. -/
def merkleLoop (h : String → String) (base : List String) : List String :=
  if _hgt : base.length > 1 then merkleLoop h (mergeLevel h base 0) else base
termination_by base.length
decreasing_by
  rw [mergeLevel_eq_pairFold, List.drop_zero, pairFold_length]
  omega

/-- `Block._find_merkle_root` itself: reject an empty transaction set with
`InvalidTransaction(height, ...)`, otherwise fold the hash list down to a
single digest. -/
def find_merkle_root (h : String → String) (height : Nat)
    (txHashes : List String) : Except PyError String :=
  if txHashes.length < 1 then
    .error (.invalidTransaction height
      "Zero transactions in block. Please provide transactions.")
  else
    .ok ((merkleLoop h txHashes).headD "")

/-- The `while` loop ends in exactly the spec's root. -/
theorem merkleLoop_eq_spec (h : String → String) :
    ∀ base : List String, base ≠ [] → merkleLoop h base = [merkleRootSpec h base]
  | [], hne => absurd rfl hne
  | [x], _ => by
    rw [merkleLoop]
    rw [dif_neg (by simp)]
    simp [merkleRootSpec]
  | x :: y :: rest, _ => by
    rw [merkleLoop]
    rw [dif_pos (by simp)]
    rw [mergeLevel_eq_pairFold, List.drop_zero]
    have hne : pairFold h (x :: y :: rest) ≠ [] := by
      have := pairFold_length h (x :: y :: rest)
      intro hnil
      rw [hnil] at this
      simp only [List.length_nil, List.length_cons] at this
      omega
    rw [merkleLoop_eq_spec h (pairFold h (x :: y :: rest)) hne]
    rw [merkleRootSpec]
termination_by base => base.length
decreasing_by
  simp only [pairFold, List.length_cons, pairFold_length]
  omega

/-! ## Block construction (`Block.__init__`)

```python
self.height = height
self.prev_hash = prev_hash
self.transactions = transactions
self.timestamp = timestamp
self.nonce = nonce
if self.timestamp == 0:
    self.merkle_root = 0
    self.header = 0
else:
    self.merkle_root = self._find_merkle_root()
    self.header = self._get_header(self.prev_hash, self.merkle_root, self.timestamp, self.nonce)
```

For the genesis convention `merkle_root` and `header` hold the integer
`0`; otherwise they hold hash strings — a dynamically typed field we
model as `HeaderVal`.  Transactions enter the Merkle computation through
their `hash` field, so a block is modelled over its list of transaction
hashes. -/

/-- The dynamically typed value of `Block.merkle_root` / `Block.header`:
the literal integer `0` for the genesis convention, a digest string
otherwise. -/
inductive HeaderVal where
  | ofInt (n : Nat)
  | ofStr (s : String)
deriving DecidableEq

/-- The fields of a constructed `Block`. -/
structure Block where
  height : Nat
  prev_hash : String
  txHashes : List String
  timestamp : Nat
  nonce : Nat
  merkle_root : HeaderVal
  header : HeaderVal
deriving DecidableEq

/-- `Block.__init__` as far as the `merkle_root`/`header` assignment:
the genesis convention on `timestamp == 0` bypasses the Merkle
computation with fixed zero values, any other timestamp computes the
Merkle root (raising on an empty transaction list) and the header. -/
def Block.make (h : String → String) (height : Nat) (txHashes : List String)
    (prev_hash : String) (timestamp : Nat) (nonce : Nat) :
    Except PyError Block :=
  if timestamp = 0 then
    .ok ⟨height, prev_hash, txHashes, timestamp, nonce, .ofInt 0, .ofInt 0⟩
  else
    match find_merkle_root h height txHashes with
    | .error e => .error e
    | .ok root =>
        .ok ⟨height, prev_hash, txHashes, timestamp, nonce, .ofStr root,
          .ofStr (get_header h prev_hash root timestamp nonce)⟩

/-! ## Claim C1: the Merkle root is the pairwise fold -/

/-- C1: for every non-empty ordered list of transaction hashes,
`Block._find_merkle_root` computes exactly the repeated pairwise fold:
adjacent pairs hashed as the hash of their concatenation, an unpaired
final element of an odd-width level hashed alone (not duplicated against
itself), repeated until one digest remains. -/
theorem merkle_root_pairwise_fold (h : String → String) (height : Nat)
    (txs : List String) (hne : txs ≠ []) :
    find_merkle_root h height txs = .ok (merkleRootSpec h txs) := by
  have hlen : ¬ txs.length < 1 := by
    cases txs with
    | nil => exact absurd rfl hne
    | cons x xs => simp
  rw [find_merkle_root, if_neg hlen, merkleLoop_eq_spec h txs hne]
  rfl

/-- Witness for `merkle_root_pairwise_fold` at a concrete three-leaf
input and a concrete collaborator hash. -/
theorem merkle_root_pairwise_fold_witness :
    (["a", "b", "c"] : List String) ≠ [] ∧
      find_merkle_root tagHash 1 ["a", "b", "c"] =
        .ok (merkleRootSpec tagHash ["a", "b", "c"]) :=
  ⟨by decide, merkle_root_pairwise_fold tagHash 1 ["a", "b", "c"] (by decide)⟩

/-! ## Claim C2: the block header is NOT a double hash

`Block._get_header` computes `sha_512(data + data)` — the hash function
applied once to the self-concatenation of the data — not
`sha_512(sha_512(data))`. -/

/-- C2 counterexample: with the collaborator hash `tagHash`, the header
of a block with `prev_hash = "a"`, `merkle_root = "b"`, timestamp and
nonce `0` is not the hash function applied twice to the concatenation
`prevHash + merkleRoot + hex(timestamp) + hex(nonce)`. -/
theorem header_not_double_hashed :
    get_header tagHash "a" "b" 0 0 ≠
      tagHash (tagHash ("a" ++ "b" ++ hex8 0 ++ hex8 0)) := by
  decide

/-- C2 amended: for every collaborator hash and every field tuple, the
header is the hash applied once to the concatenation
`prevHash + merkleRoot + hex(timestamp) + hex(nonce)` concatenated with
itself. -/
theorem header_single_hash_of_doubled_data (h : String → String)
    (prev_hash merkle_root : String) (timestamp nonce : Nat) :
    get_header h prev_hash merkle_root timestamp nonce =
      h ((prev_hash ++ merkle_root ++ hex8 timestamp ++ hex8 nonce) ++
         (prev_hash ++ merkle_root ++ hex8 timestamp ++ hex8 nonce)) := rfl

/-! ## Claim C3: empty transaction set rejected with `InvalidTransaction` -/

/-- C3: constructing a non-genesis block (nonzero timestamp) with an
empty transaction list fails with `InvalidTransaction` carrying the
block's height and produces no block, while construction with at least
one transaction succeeds (so in particular never raises that error). -/
theorem empty_transactions_invalid (h : String → String) (height : Nat)
    (txs : List String) (prev : String) (ts nonce : Nat) (hts : ts ≠ 0) :
    (txs = [] → Block.make h height txs prev ts nonce =
      .error (.invalidTransaction height
        "Zero transactions in block. Please provide transactions.")) ∧
    (txs ≠ [] → ∃ b, Block.make h height txs prev ts nonce = .ok b) := by
  constructor
  · intro he
    subst he
    rw [Block.make, if_neg hts]
    rfl
  · intro hne
    have hlen : ¬ txs.length < 1 := by
      cases txs with
      | nil => exact absurd rfl hne
      | cons x xs => simp
    rw [Block.make, if_neg hts, find_merkle_root, if_neg hlen]
    exact ⟨_, rfl⟩

/-- Witness for `empty_transactions_invalid` at timestamp `1`, height `2`
and an empty transaction list. -/
theorem empty_transactions_invalid_witness :
    (1 : Nat) ≠ 0 ∧
      ((([] : List String) = [] → Block.make tagHash 2 [] "p" 1 0 =
          .error (.invalidTransaction 2
            "Zero transactions in block. Please provide transactions.")) ∧
        (([] : List String) ≠ [] → ∃ b, Block.make tagHash 2 [] "p" 1 0 = .ok b)) :=
  ⟨by decide, empty_transactions_invalid tagHash 2 [] "p" 1 0 (by decide)⟩

/-! ## Claim C10: the genesis convention is keyed solely on the timestamp -/

/-- C10: any block constructed with timestamp `0` — whatever its height
and however many transactions it carries — gets `merkle_root = 0` and
`header = 0` and skips the Merkle computation (including its
empty-transaction check) entirely, while any nonzero timestamp always
goes through the Merkle and header computation. -/
theorem genesis_keyed_on_timestamp (h : String → String) (height : Nat)
    (txs : List String) (prev : String) (ts nonce : Nat) :
    (ts = 0 → Block.make h height txs prev ts nonce =
      .ok ⟨height, prev, txs, ts, nonce, .ofInt 0, .ofInt 0⟩) ∧
    (ts ≠ 0 → Block.make h height txs prev ts nonce =
      (find_merkle_root h height txs).map fun root =>
        ⟨height, prev, txs, ts, nonce, .ofStr root,
          .ofStr (get_header h prev root ts nonce)⟩) := by
  constructor
  · intro h0
    rw [Block.make, if_pos h0]
  · intro hts
    rw [Block.make, if_neg hts]
    cases hfm : find_merkle_root h height txs with
    | error e => simp [Except.map]
    | ok root => simp [Except.map]

/-- Witness for `genesis_keyed_on_timestamp`: a timestamp-`0` block at
nonzero height with an empty transaction list still constructs, with
both derived fields the integer `0`. -/
theorem genesis_keyed_on_timestamp_witness :
    (0 : Nat) = 0 ∧ Block.make tagHash 7 [] "p" 0 0 =
      .ok ⟨7, "p", [], 0, 0, .ofInt 0, .ofInt 0⟩ :=
  ⟨rfl, (genesis_keyed_on_timestamp tagHash 7 [] "p" 0 0).1 rfl⟩

/-! ## BlockChain constants (class attributes of `BlockChain`) -/

def _INITIAL_COINS : Nat := 100
def _HALVING_FREQUENCY : Nat := 180000
def _HASH_DIFFICULTY_MIN : Nat := 2
def _TARGET_TIME : Nat := 600
def _DIFFICULTY_ADJUSTMENT_SPAN : Nat := 500
def _SIGNIFICANT_DIGITS : Nat := 8
def _SHORT_CHAIN_TOLERANCE : Nat := 3

/-! ## Persistence rows

The three logical collections written by `add_block`
(`database.blocks`, `database.transactions`, `database.branch`). -/

/-- A row of the `blocks` collection, as inserted by `add_block`. -/
structure BlockRow where
  hash : String
  previous_hash : String
  merkle_root : String
  height : Nat
  nonce : Nat
  timestamp : Nat
  branch : Nat
deriving DecidableEq

/-- A row of the `transactions` collection, as inserted by `add_block`
(the `by`/`to` keys are rendered `sender`/`receiver` — both are
reserved words in Lean). -/
structure TransactionRow where
  hash : String
  sender : String
  amount : ℚ
  receiver : String
  fee : Nat
  timestamp : Nat
  signature : String
  block_hash : String
  branch : Nat
deriving DecidableEq

/-- A row of the `branch` collection. -/
structure BranchRow where
  _id : Nat
  current_height : Nat
  current_hash : String
deriving DecidableEq

/-- The three collections of the local database. -/
structure DBState where
  blocks : List BlockRow
  transactions : List TransactionRow
  branch : List BranchRow
deriving DecidableEq

/-! ## `BlockChain.get_height`

```python
return [x for x in self.database.blocks.find().sort('height', -1).limit(1)][0]['height']
```

The query ranges over ALL block rows — it never filters by branch. -/

/-- `BlockChain.get_height`: the height of the first row of the whole
block collection sorted by height descending (an `IndexError` when the
collection is empty). -/
def get_height (blocks : List BlockRow) : Except PyError Nat :=
  match natMaxOf (blocks.map (·.height)) with
  | none => .error (.indexError "list index out of range")
  | some m => .ok m

/-- The spec-side notion the claim names: the current height of branch
`b`, read from the block store as the maximum height among the rows
tagged with that branch. -/
def branchCurrentHeight (blocks : List BlockRow) (b : Nat) : Option Nat :=
  natMaxOf ((blocks.filter fun r => decide (r.branch = b)).map (·.height))

/-! ## Claim C4: `get_height` and branch 0 -/

/-- C4 counterexample: a ledger state whose primary branch tops out at
height 5 while branch 1 holds a block of height 9.  `get_height` returns
9, not branch 0's height 5. -/
theorem get_height_not_branch_zero :
    branchCurrentHeight
        [⟨"h0", "g", "m0", 5, 0, 10, 0⟩, ⟨"h1", "h0", "m1", 9, 0, 20, 1⟩] 0 =
      some 5 ∧
    get_height
        [⟨"h0", "g", "m0", 5, 0, 10, 0⟩, ⟨"h1", "h0", "m1", 9, 0, 20, 1⟩] ≠
      .ok 5 := by
  constructor
  · decide
  · decide

/-- C4 amended: `get_height` returns the maximum block height across all
branches; whenever branch 0's height bounds every block row (as
`add_block`'s promotion logic maintains), that maximum IS branch 0's
height. -/
theorem get_height_global_max (blocks : List BlockRow) (m : Nat)
    (h0 : branchCurrentHeight blocks 0 = some m)
    (hmax : ∀ r ∈ blocks, r.height ≤ m) :
    get_height blocks = .ok m := by
  obtain ⟨hmem, _⟩ := natMaxOf_spec h0
  obtain ⟨r, hr, hrh⟩ := List.mem_map.mp hmem
  have hrb : r ∈ blocks := List.mem_of_mem_filter hr
  have hmem2 : m ∈ blocks.map (·.height) :=
    List.mem_map.mpr ⟨r, hrb, hrh⟩
  have hub2 : ∀ x ∈ blocks.map (·.height), x ≤ m := by
    intro x hx
    obtain ⟨s, hs, hsx⟩ := List.mem_map.mp hx
    exact hsx ▸ hmax s hs
  rw [get_height, natMaxOf_eq hmem2 hub2]

/-- Witness for `get_height_global_max`: a state whose branch 0 is the
tallest, where `get_height` indeed reports branch 0's height. -/
theorem get_height_global_max_witness :
    branchCurrentHeight
        [⟨"h0", "g", "m0", 9, 0, 10, 0⟩, ⟨"h1", "g", "m1", 5, 0, 20, 1⟩] 0 =
      some 9 ∧
    get_height
        [⟨"h0", "g", "m0", 9, 0, 10, 0⟩, ⟨"h1", "g", "m1", 5, 0, 20, 1⟩] =
      .ok 9 :=
  ⟨by decide,
    get_height_global_max _ 9 (by decide) (by decide)⟩

/-! ## `BlockChain.find_hash_difficulty`

```python
if height > self._DIFFICULTY_ADJUSTMENT_SPAN:
    new_header, new_timestamp = self.get_multiple_tallest_headers(height-self._DIFFICULTY_ADJUSTMENT_SPAN)
    timestamp = block_timestamp - new_timestamp
    if timestamp < (self._TARGET_TIME * self._DIFFICULTY_ADJUSTMENT_SPAN):
        return header.hash_difficulty + 1
    elif timestamp > (self._TARGET_TIME * self._DIFFICULTY_ADJUSTMENT_SPAN):
        return header.hash_difficulty - 1
    return header.hash_difficulty
return self._HASH_DIFFICULTY_MIN
```

The database lookups are abstracted into the arguments: the reference
block's proof-of-work strength `header.hash_difficulty` and the two
timestamps at `height` and `height - span`. -/

/-- The retargeting core of `BlockChain.find_hash_difficulty(height)`. -/
def find_hash_difficulty (height : Nat) (header_difficulty : Nat)
    (block_timestamp new_timestamp : Int) : Int :=
  if height > _DIFFICULTY_ADJUSTMENT_SPAN then
    let timestamp := block_timestamp - new_timestamp
    if timestamp < ((_TARGET_TIME * _DIFFICULTY_ADJUSTMENT_SPAN : Nat) : Int) then
      (header_difficulty : Int) + 1
    else if timestamp > ((_TARGET_TIME * _DIFFICULTY_ADJUSTMENT_SPAN : Nat) : Int) then
      (header_difficulty : Int) - 1
    else
      (header_difficulty : Int)
  else
    (_HASH_DIFFICULTY_MIN : Int)

/-! ## Claim C5: the difficulty step adjustment -/

/-- C5 counterexample: at height 501 with current difficulty 2 (the
configured minimum) and elapsed time 600000 seconds over the last 500
blocks (longer than the 300000-second target), the oracle returns 1 —
strictly below the configured minimum, which the claim rules out. -/
theorem difficulty_decrement_below_min :
    find_hash_difficulty 501 2 600000 0 = 1 ∧
      (1 : Int) < (_HASH_DIFFICULTY_MIN : Int) := by
  constructor
  · decide
  · decide

/-- C5 amended: at or below `DIFFICULTY_ADJUSTMENT_SPAN` blocks of
history the oracle returns the fixed minimum; above it, comparing the
elapsed time against `TARGET_TIME * DIFFICULTY_ADJUSTMENT_SPAN`, it
returns difficulty + 1 when shorter, difficulty − 1 when longer — with
NO lower clamp, so the result can drop below the configured minimum —
and the unchanged difficulty when equal. -/
theorem difficulty_step_adjustment (height hd : Nat) (t1 t0 : Int) :
    (height ≤ _DIFFICULTY_ADJUSTMENT_SPAN →
      find_hash_difficulty height hd t1 t0 = (_HASH_DIFFICULTY_MIN : Int)) ∧
    (_DIFFICULTY_ADJUSTMENT_SPAN < height →
      (t1 - t0 < ((_TARGET_TIME * _DIFFICULTY_ADJUSTMENT_SPAN : Nat) : Int) →
        find_hash_difficulty height hd t1 t0 = (hd : Int) + 1) ∧
      (((_TARGET_TIME * _DIFFICULTY_ADJUSTMENT_SPAN : Nat) : Int) < t1 - t0 →
        find_hash_difficulty height hd t1 t0 = (hd : Int) - 1) ∧
      (t1 - t0 = ((_TARGET_TIME * _DIFFICULTY_ADJUSTMENT_SPAN : Nat) : Int) →
        find_hash_difficulty height hd t1 t0 = (hd : Int))) := by
  unfold find_hash_difficulty
  constructor
  · intro hle
    rw [if_neg (by omega)]
  · intro hgt
    refine ⟨?_, ?_, ?_⟩
    · intro hfast
      rw [if_pos hgt]
      simp only []
      rw [if_pos hfast]
    · intro hslow
      rw [if_pos hgt]
      simp only []
      rw [if_neg (by omega), if_pos hslow]
    · intro heq
      rw [if_pos hgt]
      simp only []
      rw [if_neg (by omega), if_neg (by omega)]

/-- Witness for `difficulty_step_adjustment`: height 501, difficulty 5,
elapsed 100 seconds (shorter than target) steps to 6. -/
theorem difficulty_step_adjustment_witness :
    find_hash_difficulty 501 5 100 0 = (5 : Int) + 1 :=
  ((difficulty_step_adjustment 501 5 100 0).2 (by decide)).1 (by decide)

/-! ## `BlockChain.calculate_reward`

```python
round_off = pow(10, self._SIGNIFICANT_DIGITS)
reward = self._INITIAL_COINS
for _ in range(1, int(height/self._HALVING_FREQUENCY)+1):
    reward = floor(reward * round_off / 2) / round_off
return reward
```

Modelled in exact rational arithmetic. -/

/-- `pow(10, _SIGNIFICANT_DIGITS)`, the rounding precision. -/
def round_off : ℚ := 10 ^ _SIGNIFICANT_DIGITS

/-- One halving with its immediate round-down to the precision. -/
def halveStep (reward : ℚ) : ℚ := (⌊reward * round_off / 2⌋ : ℚ) / round_off

/-- The reward after `n` individually rounded halvings. -/
def rewardAfter : Nat → ℚ
  | 0 => (_INITIAL_COINS : ℚ)
  | n + 1 => halveStep (rewardAfter n)

/-- `BlockChain.calculate_reward`: one halving per complete multiple of
`_HALVING_FREQUENCY` already passed. -/
def calculate_reward (height : Nat) : ℚ :=
  rewardAfter (height / _HALVING_FREQUENCY)

theorem round_off_pos : (0 : ℚ) < round_off := by
  rw [round_off, _SIGNIFICANT_DIGITS]
  norm_num

theorem halveStep_nonneg {r : ℚ} (hr : 0 ≤ r) : 0 ≤ halveStep r := by
  rw [halveStep]
  apply div_nonneg _ (le_of_lt round_off_pos)
  have : (0 : ℤ) ≤ ⌊r * round_off / 2⌋ := by
    apply Int.floor_nonneg.mpr
    exact div_nonneg (mul_nonneg hr (le_of_lt round_off_pos)) (by norm_num)
  exact_mod_cast this

theorem halveStep_le {r : ℚ} (hr : 0 ≤ r) : halveStep r ≤ r := by
  rw [halveStep]
  have h1 : (⌊r * round_off / 2⌋ : ℚ) ≤ r * round_off / 2 := Int.floor_le _
  have h2 : r * round_off / 2 ≤ r * round_off := by
    apply half_le_self
    exact mul_nonneg hr (le_of_lt round_off_pos)
  have h3 : (⌊r * round_off / 2⌋ : ℚ) / round_off ≤ (r * round_off) / round_off :=
    (div_le_div_iff_of_pos_right round_off_pos).mpr (h1.trans h2)
  calc (⌊r * round_off / 2⌋ : ℚ) / round_off
      ≤ (r * round_off) / round_off := h3
    _ = r := mul_div_cancel_right₀ r (ne_of_gt round_off_pos)

theorem rewardAfter_nonneg : ∀ n : Nat, 0 ≤ rewardAfter n
  | 0 => by rw [rewardAfter]; positivity
  | n + 1 => halveStep_nonneg (rewardAfter_nonneg n)

theorem rewardAfter_succ_le (n : Nat) : rewardAfter (n + 1) ≤ rewardAfter n :=
  halveStep_le (rewardAfter_nonneg n)

theorem rewardAfter_antitone : Antitone rewardAfter :=
  antitone_nat_of_succ_le rewardAfter_succ_le

/-! ## Claim C6: the reward schedule -/

/-- C6: `calculate_reward(0) = 100`, `calculate_reward(HALVING_FREQUENCY)
= 50`, and the reward is non-increasing in height; each halving rounds
down to the configured precision immediately (the shape of
`rewardAfter`). -/
theorem reward_schedule (h1 h2 : Nat) (hle : h1 ≤ h2) :
    calculate_reward 0 = 100 ∧
    calculate_reward _HALVING_FREQUENCY = 50 ∧
    calculate_reward h2 ≤ calculate_reward h1 := by
  refine ⟨?_, ?_, ?_⟩
  · rw [calculate_reward, Nat.zero_div, rewardAfter, _INITIAL_COINS]
    norm_num
  · rw [calculate_reward, Nat.div_self (by rw [_HALVING_FREQUENCY]; norm_num)]
    rw [show rewardAfter 1 = halveStep (rewardAfter 0) from rfl]
    rw [rewardAfter, _INITIAL_COINS, halveStep]
    have hcast : ((100 : Nat) : ℚ) * round_off / 2 = ((5000000000 : ℤ) : ℚ) := by
      rw [round_off, _SIGNIFICANT_DIGITS]
      norm_num
    rw [hcast, Int.floor_intCast, round_off, _SIGNIFICANT_DIGITS]
    norm_num
  · rw [calculate_reward, calculate_reward]
    exact rewardAfter_antitone (Nat.div_le_div_right hle)

/-- Witness for `reward_schedule`: instantiated at heights 180000 and
360000. -/
theorem reward_schedule_witness :
    180000 ≤ 360000 ∧
      (calculate_reward 0 = 100 ∧
       calculate_reward _HALVING_FREQUENCY = 50 ∧
       calculate_reward 360000 ≤ calculate_reward 180000) :=
  ⟨by omega, reward_schedule 180000 360000 (by omega)⟩

/-! ## `Block.hash_difficulty`

```python
difficulty = 0
for letter in self.hash:
    if letter != 0:
        break
    difficulty += 1
return difficulty
```

`letter` ranges over the CHARACTERS of the hash string while the
comparison is against the INTEGER `0`; in Python a string is never equal
to an integer, so the guard is true on the very first character. -/

/-- Python's `letter != 0` for a one-character string `letter`: a `str`
never equals an `int`, so this is `true` for every character. -/
def pyCharNeIntZero (_letter : Char) : Bool := true

/-- The character loop of `Block.hash_difficulty`. -/
def hashDifficultyLoop : List Char → Nat → Nat
  | [], difficulty => difficulty
  | letter :: rest, difficulty =>
      if pyCharNeIntZero letter then difficulty
      else hashDifficultyLoop rest (difficulty + 1)

/-- `Block.hash_difficulty` over the block's hash string. -/
def hash_difficulty (hash : String) : Nat := hashDifficultyLoop hash.data 0

/-- The count the claim describes: leading `'0'` characters. -/
def leadingZeroCount : List Char → Nat
  | [] => 0
  | c :: rest => if c = '0' then leadingZeroCount rest + 1 else 0

/-- Leading `'0'` characters of a hash string. -/
def leadingZeros (s : String) : Nat := leadingZeroCount s.data

/-! ## Claim C7: `hash_difficulty` never counts anything -/

/-- C7 (code bug): because each character is compared with the integer
`0`, the loop breaks immediately and `hash_difficulty` is `0` for every
hash string; in particular the hash `"00ab"` has two leading zero
characters but reported difficulty `0`, not `2`. -/
theorem hash_difficulty_always_zero :
    (∀ s : String, hash_difficulty s = 0) ∧
      hash_difficulty "00ab" = 0 ∧ leadingZeros "00ab" = 2 := by
  refine ⟨?_, by decide, by decide⟩
  intro s
  rw [hash_difficulty]
  cases s.data with
  | nil => rfl
  | cons c rest => rfl

/-! ## Signature decoding (`security.decode_their_signature`)

```python
sign_length, block_size, sign_code = digital_signature.split('_')
blocks = [int(block) for block in sign_code.split(', ')]
key_1, key_0 = public_key
decrypted_blocks = [pow(block, int(key_0), int(key_1)) for block in blocks]
signature = []
for block in decrypted_blocks:
    block_content = []
    for i in range(int(block_size) - 1, -1, -1):
        if len(signature) + i < int(sign_length):
            block_text = block // (_BYTE_SIZE ** i)
            block = block % (_BYTE_SIZE ** i)
            block_chr = chr(block_text)
            block_content.insert(0, block_chr)
    signature.extend(block_content)
return "".join(signature)
```

Each fallible Python primitive (`split`-unpacking, `int(...)`,
three-argument `pow`, `chr`) is modelled as an `Except` computation so
that the `ValueError`s a malformed signature token provokes are visible. -/

def _BYTE_SIZE : Nat := 256

/-- `str.split(sep)` for a non-empty separator, by fuel-counted scan
(fuel `input.length + 1` always suffices). -/
def splitSeqFuel (sep : List Char) : Nat → List Char → List (List Char)
  | _, [] => [[]]
  | 0, l => [l]
  | fuel + 1, c :: rest =>
      if sep.isPrefixOf (c :: rest) then
        [] :: splitSeqFuel sep fuel ((c :: rest).drop sep.length)
      else
        match splitSeqFuel sep fuel rest with
        | [] => [[c]]
        | t :: ts => (c :: t) :: ts

/-- Python's `s.split(sep)` (explicit non-empty separator). -/
def pySplit (s : String) (sep : String) : List String :=
  (splitSeqFuel sep.data (s.data.length + 1) s.data).map String.mk

/-- Numeric value of a digit run. -/
def digitsVal (l : List Char) : Nat :=
  l.foldl (fun acc c => 10 * acc + (c.toNat - 48)) 0

/-- Python's `int(s)` on a plain (optionally `-`-signed) digit string;
anything else raises `ValueError`. -/
def pyInt (s : String) : Except PyError Int :=
  match s.data with
  | '-' :: rest =>
      if rest ≠ [] ∧ rest.all (·.isDigit) then .ok (-(digitsVal rest : Int))
      else .error (.valueError ("invalid literal for int() with base 10: " ++ s))
  | l =>
      if l ≠ [] ∧ l.all (·.isDigit) then .ok ((digitsVal l : Int))
      else .error (.valueError ("invalid literal for int() with base 10: " ++ s))

/-- Python's three-argument `pow(b, e, m)` for the exponents and moduli
this code produces (`e ≥ 0`; `m = 0` raises; modular inverses for
negative exponents are not reachable from single-digit keys and are
rendered as the error Python would raise for a non-invertible base). -/
def pyPow (b e m : Int) : Except PyError Int :=
  if m = 0 then .error (.valueError "pow() 3rd argument cannot be 0")
  else if e < 0 then
    .error (.valueError "base is not invertible for the given modulus")
  else .ok (Int.emod (b ^ e.toNat) m)

/-- Python's `chr`. -/
def pyChr (n : Int) : Except PyError Char :=
  if 0 ≤ n ∧ n < 1114112 then .ok (Char.ofNat n.toNat)
  else .error (.valueError "chr() arg not in range(0x110000)")

/-- Python's `range(start, -1, -1)`: `start` down to `0`. -/
def pyRangeDown (start : Int) : List Int :=
  if start < 0 then []
  else (List.range (start.toNat + 1)).map (fun k => start - (k : Int))

/-- The inner `for i in range(int(block_size) - 1, -1, -1)` loop:
`block_content.insert(0, chr(block // 256**i))` for every `i` with
`len(signature) + i < int(sign_length)`, consuming `block` as it goes
(`int(sign_length)` is evaluated lazily, at the first guard check, as in
the source). -/
def innerLoop (sign_length : String) (acc_len : Nat) :
    List Int → Int → List Char → Except PyError (List Char)
  | [], _, block_content => .ok block_content
  | i :: rest, block, block_content => do
      let sl ← pyInt sign_length
      if (acc_len : Int) + i < sl then do
        let block_text := Int.ediv block ((_BYTE_SIZE : Int) ^ i.toNat)
        let block' := Int.emod block ((_BYTE_SIZE : Int) ^ i.toNat)
        let block_chr ← pyChr block_text
        innerLoop sign_length acc_len rest block' (block_chr :: block_content)
      else
        innerLoop sign_length acc_len rest block block_content

/-- The outer `for block in decrypted_blocks` loop, extending
`signature` with each block's characters. -/
def outerLoop (sign_length block_size : String) :
    List Int → List Char → Except PyError (List Char)
  | [], signature => .ok signature
  | block :: rest, signature => do
      let bs ← pyInt block_size
      let block_content ←
        innerLoop sign_length signature.length (pyRangeDown (bs - 1)) block []
      outerLoop sign_length block_size rest (signature ++ block_content)

/-- `security.decode_their_signature`. -/
def decode_their_signature (digital_signature public_key : String) :
    Except PyError String := do
  match pySplit digital_signature "_" with
  | [sign_length, block_size, sign_code] =>
      match (pySplit sign_code ", ").mapM pyInt with
      | .error e => .error e
      | .ok blocks =>
          match public_key.data with
          | [key_1, key_0] => do
              let k0 ← pyInt (String.mk [key_0])
              let k1 ← pyInt (String.mk [key_1])
              let decrypted_blocks ← blocks.mapM (fun block => pyPow block k0 k1)
              let signature ← outerLoop sign_length block_size decrypted_blocks []
              .ok (String.mk signature)
          | l =>
              .error (.valueError
                (if l.length < 2 then
                  "not enough values to unpack (expected 2, got " ++
                    toString l.length ++ ")"
                 else "too many values to unpack (expected 2)"))
  | parts =>
      .error (.valueError
        (if parts.length < 3 then
          "not enough values to unpack (expected 3, got " ++
            toString parts.length ++ ")"
         else "too many values to unpack (expected 3)"))

/-! ## Transactions (`Transaction`) -/

/-- The fields a `Transaction` is constructed with. -/
structure Transaction where
  index : Nat
  sender : String
  receiver : String
  quantity : ℚ
  fee : Nat
  timestamp : Nat
  sign : String
deriving DecidableEq

/-- `Transaction.verify_transaction`:
`decode_their_signature(self.sign, self.sender) == verification_text`. -/
def Transaction.verify_transaction (t : Transaction)
    (verification_text : String) : Except PyError Bool :=
  match decode_their_signature t.sign t.sender with
  | .error e => .error e
  | .ok decoded => .ok (decoded == verification_text)

/-! ## Claim C8: `verify` and malformed signatures -/

/-- The genesis transaction `Transaction(0, '0', 0, '0', 0, '0', 0)`. -/
def genesisTransaction : Transaction := ⟨0, "0", "0", 0, 0, 0, "0"⟩

/-- C8 counterexample: verifying the genesis transaction (signature
token `"0"`, which has no `'_'` separators) raises a `ValueError` from
the three-way unpacking instead of returning `false`. -/
theorem verify_raises_on_malformed :
    exceptIsOk (genesisTransaction.verify_transaction "0") = false := by
  decide

/-- C8 amended: whenever the signature token decodes (in particular for
every well-formed token), `verify` returns the boolean comparison of the
decoded text with the expected plaintext — `false` on a mismatch — but a
token the decoder cannot parse propagates the decoder's `ValueError`
instead of returning `false`. -/
theorem verify_bool_of_decodable (t : Transaction)
    (verification_text decoded : String)
    (hdec : decode_their_signature t.sign t.sender = .ok decoded) :
    t.verify_transaction verification_text =
      .ok (decoded == verification_text) := by
  rw [Transaction.verify_transaction, hdec]

/-- Witness for `verify_bool_of_decodable`: the token `"1_1_0"` under
public key `"91"` decodes to the one-character string `"\x00"`, and
verification against the plaintext `"a"` returns `ok false`. -/
theorem verify_bool_of_decodable_witness :
    (Transaction.verify_transaction ⟨0, "91", "r", 1, 0, 5, "1_1_0"⟩ "a") =
      .ok false := by
  have h := verify_bool_of_decodable ⟨0, "91", "r", 1, 0, 5, "1_1_0"⟩ "a"
    "\x00" (by decide)
  rw [h]
  decide

/-! ## `BlockChain.prune`

```python
max_height = [x for x in blocks_entry.find().sort('height', -1).limit(1)][0]['height']
target_branches = branch_entry.find({'current_height': {
    '$lt': (max_height - self._SHORT_CHAIN_TOLERANCE)}})['_id']
tran_block_query = {'branch': {'$in': target_branches}}
branch_query = {'_id': {'$in': target_branches}}
block_del = blocks_entry.delete_many(tran_block_query)
transac_del = transaction_entry.delete_many(tran_block_query)
branch_del = branch_entry.delete_many(branch_query)
```

`target_branches` is read as the `_id`s of the matching branch rows, the
three `delete_many` calls as filters; the returned f-string is modelled
by its three deletion counts. -/

/-- The result of a `prune()` call: the surviving collections and the
three `deleted_count`s the message reports. -/
structure PruneResult where
  state : DBState
  transactions_cleared : Nat
  blocks_cleared : Nat
  branches_cleared : Nat
deriving DecidableEq

/-- `BlockChain.prune`. -/
def prune (s : DBState) : Except PyError PruneResult :=
  match natMaxOf (s.blocks.map (·.height)) with
  | none => .error (.indexError "list index out of range")
  | some max_height =>
      let target_branches := (s.branch.filter fun br =>
        decide ((br.current_height : Int) <
          (max_height : Int) - (_SHORT_CHAIN_TOLERANCE : Int))).map (·._id)
      let keptBlocks := s.blocks.filter fun r =>
        decide (r.branch ∉ target_branches)
      let keptTransactions := s.transactions.filter fun t =>
        decide (t.branch ∉ target_branches)
      let keptBranches := s.branch.filter fun br =>
        decide (br._id ∉ target_branches)
      .ok ⟨⟨keptBlocks, keptTransactions, keptBranches⟩,
        s.transactions.length - keptTransactions.length,
        s.blocks.length - keptBlocks.length,
        s.branch.length - keptBranches.length⟩

/-- The spec's `tallestHeight`: the maximum `currentHeight` across all
branches (`0` when there are none). -/
def branchTallest (branches : List BranchRow) : Nat :=
  (branches.map (·.current_height)).foldr Nat.max 0

theorem foldrMax_le {m : Nat} :
    ∀ {l : List Nat}, (∀ x ∈ l, x ≤ m) → l.foldr Nat.max 0 ≤ m
  | [], _ => Nat.zero_le m
  | x :: xs, h => by
    rw [List.foldr_cons]
    exact Nat.max_le.mpr
      ⟨h x (List.mem_cons_self x xs),
        foldrMax_le fun y hy => h y (List.mem_cons_of_mem x hy)⟩

/-! ## Claim C9: prune's postconditions -/

/-- C9: on every state whose branch heights are covered by block rows
(as admission maintains), after `prune()` every surviving branch's
`currentHeight` is at least `tallestHeight - SHORT_CHAIN_TOLERANCE`
(with `tallestHeight` the pre-prune maximum over all branches), and no
block or transaction row of a deleted branch survives in either
collection. -/
theorem prune_postconditions (s : DBState) (out : PruneResult)
    (hok : prune s = .ok out)
    (hcons : ∀ br ∈ s.branch, ∃ r ∈ s.blocks, br.current_height ≤ r.height) :
    (∀ br ∈ out.state.branch,
      (branchTallest s.branch : Int) - (_SHORT_CHAIN_TOLERANCE : Int) ≤
        (br.current_height : Int)) ∧
    (∀ br ∈ s.branch, br._id ∉ out.state.branch.map (·._id) →
      (∀ r ∈ out.state.blocks, r.branch ≠ br._id) ∧
      (∀ t ∈ out.state.transactions, t.branch ≠ br._id)) := by
  rw [prune] at hok
  cases hM : natMaxOf (s.blocks.map (·.height)) with
  | none => rw [hM] at hok; cases hok
  | some M =>
    rw [hM] at hok
    injection hok with hout
    subst hout
    set target_branches := (s.branch.filter fun br =>
      decide ((br.current_height : Int) <
        (M : Int) - (_SHORT_CHAIN_TOLERANCE : Int))).map (·._id) with htb
    have hbt : branchTallest s.branch ≤ M := by
      apply foldrMax_le
      intro x hx
      obtain ⟨b2, hb2, hbx⟩ := List.mem_map.mp hx
      obtain ⟨r, hr, hle⟩ := hcons b2 hb2
      have hrM : r.height ≤ M :=
        (natMaxOf_spec hM).2 _ (List.mem_map.mpr ⟨r, hr, rfl⟩)
      rw [← hbx]
      exact hle.trans hrM
    constructor
    · intro br hbr
      obtain ⟨hbr1, hbr2⟩ := List.mem_filter.mp hbr
      have hnotin : br._id ∉ target_branches := of_decide_eq_true hbr2
      by_cases hcase : (br.current_height : Int) <
          (M : Int) - (_SHORT_CHAIN_TOLERANCE : Int)
      · exact absurd
          (List.mem_map.mpr
            ⟨br, List.mem_filter.mpr ⟨hbr1, decide_eq_true hcase⟩, rfl⟩)
          hnotin
      · omega
    · intro br hbr hnid
      have hbrT : br._id ∈ target_branches := by
        by_contra hni
        exact hnid
          (List.mem_map.mpr
            ⟨br, List.mem_filter.mpr ⟨hbr, decide_eq_true hni⟩, rfl⟩)
      constructor
      · intro r hr heq
        obtain ⟨_, hr2⟩ := List.mem_filter.mp hr
        exact of_decide_eq_true hr2 (heq ▸ hbrT)
      · intro t ht heq
        obtain ⟨_, ht2⟩ := List.mem_filter.mp ht
        exact of_decide_eq_true ht2 (heq ▸ hbrT)

/-- A concrete two-branch state for exercising `prune`: branch 0 at
height 5, branch 1 at height 1 with one transaction. -/
def pruneDemoState : DBState :=
  ⟨[⟨"h0", "g", "m0", 5, 0, 100, 0⟩, ⟨"h1", "g", "m1", 1, 0, 50, 1⟩],
   [⟨"t1", "alice", 1, "bob", 0, 50, "s", "h1", 1⟩],
   [⟨0, 5, "h0"⟩, ⟨1, 1, "h1"⟩]⟩

/-- What `prune` leaves of `pruneDemoState`: branch 1 (more than
`SHORT_CHAIN_TOLERANCE` behind) is dropped with its block and its
transaction. -/
def pruneDemoResult : PruneResult :=
  ⟨⟨[⟨"h0", "g", "m0", 5, 0, 100, 0⟩], [], [⟨0, 5, "h0"⟩]⟩, 1, 1, 1⟩

/-- Witness for `prune_postconditions` at `pruneDemoState`. -/
theorem prune_postconditions_witness :
    prune pruneDemoState = .ok pruneDemoResult ∧
    ((∀ br ∈ pruneDemoResult.state.branch,
        (branchTallest pruneDemoState.branch : Int) -
          (_SHORT_CHAIN_TOLERANCE : Int) ≤ (br.current_height : Int)) ∧
     (∀ br ∈ pruneDemoState.branch,
        br._id ∉ pruneDemoResult.state.branch.map (·._id) →
        (∀ r ∈ pruneDemoResult.state.blocks, r.branch ≠ br._id) ∧
        (∀ t ∈ pruneDemoResult.state.transactions, t.branch ≠ br._id))) :=
  ⟨by decide, prune_postconditions pruneDemoState pruneDemoResult
    (by decide) (by decide)⟩

end Eureka
